import Mathlib

/-!
Shallow embedding of `src/myCron.ts` (an in-process minute-granularity cron
scheduler) and proofs about it.  TypeScript strings are modelled as `List Char`,
JavaScript numbers occurring in the scheduler as `Int` (all arithmetic here is
exact integer arithmetic in the source as well), `null`/`undefined` as
`Option`, thrown errors as `Except` with the error message as the payload, and
the mutable module-level task array as explicit state passed in and out.
-/

deriving instance DecidableEq for Except

namespace MyCron

/-- The ASCII characters removed by JavaScript `String.prototype.trim`. -/
def isJsSpace (c : Char) : Bool :=
  c = ' ' || c = '\t' || c = '\n' || c = '\r' || c = Char.ofNat 11 || c = Char.ofNat 12

/-- JavaScript `s.split(sep)` for a single-character separator: the list of
maximal separator-free chunks; `"".split(sep)` is `[""]` and separators at the
ends produce empty chunks, exactly as in JS. -/
def splitOnChar (sep : Char) : List Char → List (List Char)
  | [] => [[]]
  | c :: cs =>
    match splitOnChar sep cs with
    | [] => [[]]
    | p :: ps => if c = sep then [] :: p :: ps else (c :: p) :: ps

/-- Helper for `collapseSpaces`: the Bool records whether the previous kept
character position ended in a space of the current run. -/
def collapseSpacesAux : Bool → List Char → List Char
  | _, [] => []
  | prevSpace, c :: cs =>
    if c = ' ' then
      if prevSpace then collapseSpacesAux true cs
      else ' ' :: collapseSpacesAux true cs
    else c :: collapseSpacesAux false cs

/-- JavaScript `s.replace(/ +/g, ' ')`: every maximal run of space characters
becomes a single space (only U+0020, as in the regex). -/
def collapseSpaces (s : List Char) : List Char := collapseSpacesAux false s

/-- JavaScript `s.trim()`: strip leading and trailing whitespace. -/
def trimJs (s : List Char) : List Char :=
  ((s.dropWhile isJsSpace).reverse.dropWhile isJsSpace).reverse

/-- The field list produced in `addTask` (myCron.ts line 52):
`task.expression.replace(/ +/g, ' ').trim().split(' ')`. -/
def expFields (expression : List Char) : List (List Char) :=
  splitOnChar ' ' (trimJs (collapseSpaces expression))

/-- Whether `needle` occurs as a contiguous substring of `hay` (used to state
what an error message does or does not contain). -/
def hasSub (hay needle : List Char) : Bool :=
  (List.range (hay.length + 1)).any (fun i => needle.isPrefixOf (hay.drop i))

/-- Insert into an ascending list, keeping it ascending. -/
def insertAsc (x : Int) : List Int → List Int
  | [] => [x]
  | y :: ys => if x ≤ y then x :: y :: ys else y :: insertAsc x ys

/-- Insertion sort, ascending. -/
def sortAsc (l : List Int) : List Int := l.foldr insertAsc []

/-- The normalisation applied to every successful parse result
(myCron.ts line 151): `[...new Set(retVal)].sort((a, b) => a - b)`, i.e. the
duplicate-free ascending reordering of the accumulated values.  `Set`
deduplicates and the numeric comparator sorts ascending; the result is the
unique sorted duplicate-free list with the same members, which is what this
definition computes. -/
def dedupSort (l : List Int) : List Int := sortAsc l.dedup

/-- The inclusive integer range `[lo, hi]` produced by the
`for (let i = lo; i <= hi; i++) retVal.push(i)` loops; empty when `hi < lo`. -/
def intRange (lo hi : Int) : List Int :=
  (List.range (hi + 1 - lo).toNat).map (fun i : Nat => lo + (i : Int))

/-- JavaScript `parseInt(s, 10)` on a string of decimal digits. -/
def parseIntDigits (s : List Char) : Int :=
  ((s.foldl (fun n c => n * 10 + (c.toNat - 48)) 0 : Nat) : Int)

/-- The regex `^[0-9]+$` (myCron.ts line 117). -/
def reDigits (s : List Char) : Bool := !s.isEmpty && s.all Char.isDigit

/-- The regex `^[0-9]+-[0-9]+$` (myCron.ts line 124): exactly one hyphen with a
nonempty digit string on each side. -/
def reRange (s : List Char) : Bool :=
  match splitOnChar '-' s with
  | [a, b] => reDigits a && reDigits b
  | _ => false

/-- The regex `^[0-9-]+(,([0-9-]+))+$` (myCron.ts line 135): at least two
comma-separated chunks, each a nonempty string over `[0-9-]`. -/
def reList (s : List Char) : Bool :=
  let ps := splitOnChar ',' s
  decide (ps.length ≥ 2) && ps.all (fun p => !p.isEmpty && p.all (fun c => c.isDigit || c = '-'))

/-- The message of the error thrown at myCron.ts line 153:
``Invalid expression: ${timeExpression}``. -/
def invalidMsg (s : List Char) : List Char := "Invalid expression: ".toList ++ s

/-- `parseTimeExpression` restricted to the comma-free sub-terms on which the
source recurses from its list branch (myCron.ts line 139).  Such a sub-term can
never match the list regex (it has no comma), so on these inputs the recursive
call runs exactly the wildcard / single-value / range branches and the final
throw; `parseTimeExpression_sub_agree` below proves the two definitions agree
on every comma-free input.  The four source branches are sequential
`if (!ok && regexN)` tests; the regexes are mutually exclusive by shape (a pure
digit string has no hyphen or comma, a `A-B` match has no comma, the list regex
requires a comma), so an if/else chain is extensionally identical. -/
def parseTimeExpressionSub (s : List Char) (mi ma : Int) :
    Except (List Char) (Option (List Int)) :=
  if s = ['*'] then .ok (some (dedupSort (intRange mi ma)))
  else if reDigits s then
    if mi ≤ parseIntDigits s ∧ parseIntDigits s ≤ ma then
      .ok (some (dedupSort [parseIntDigits s]))
    else .error (invalidMsg s)
  else if reRange s then
    match splitOnChar '-' s with
    | [a, b] =>
      if mi ≤ parseIntDigits a ∧ parseIntDigits b ≤ ma ∧ parseIntDigits a < parseIntDigits b then
        .ok (some (dedupSort (intRange (parseIntDigits a) (parseIntDigits b))))
      else .error (invalidMsg s)
    | _ => .error (invalidMsg s)
  else .error (invalidMsg s)

/-- One step of the `Array.prototype.every` callback of the list branch
(myCron.ts lines 137-148): skip once `ok` is false, otherwise parse the chunk
(a thrown error or a `null` result makes `ok` false) and append the values to
the accumulated `retVal`. -/
def listStep (mi ma : Int) (acc : Bool × List Int) (p : List Char) : Bool × List Int :=
  if acc.1 then
    match parseTimeExpressionSub p mi ma with
    | .error _ => (false, acc.2)
    | .ok none => (false, acc.2)
    | .ok (some vs) => (true, acc.2 ++ vs)
  else acc

/-- The list branch of `parseTimeExpression` (myCron.ts lines 135-149 plus the
shared lines 150-153): fold `listStep` over the comma-separated chunks; when
`ok` survives, return the deduplicated sorted accumulation, otherwise throw. -/
def listBranch (s : List Char) (mi ma : Int) : Except (List Char) (Option (List Int)) :=
  if ((splitOnChar ',' s).foldl (listStep mi ma) (true, [])).1 then
    .ok (some (dedupSort ((splitOnChar ',' s).foldl (listStep mi ma) (true, [])).2))
  else .error (invalidMsg s)

/-- `parseTimeExpression(timeExpression, min, max)` (myCron.ts lines 108-154).
Branches in source order: wildcard `*`; single non-negative integer with bound
check; range `A-B` with `min ≤ A`, `B ≤ max`, `B > A`; comma list, folding
`Array.prototype.every` over the chunks with the recursive result appended to
the accumulator (`parseTimeExpressionSub` is that recursive call, see its
docstring), a thrown or `null` sub-result making `ok` false for good.  On
success the accumulated values are deduplicated and sorted (`dedupSort`);
otherwise the `Invalid expression: ...` error is thrown.  The TS return type
admits `null`, hence the `Option` in the result. -/
def parseTimeExpression (s : List Char) (mi ma : Int) :
    Except (List Char) (Option (List Int)) :=
  if s = ['*'] then .ok (some (dedupSort (intRange mi ma)))
  else if reDigits s then
    if mi ≤ parseIntDigits s ∧ parseIntDigits s ≤ ma then
      .ok (some (dedupSort [parseIntDigits s]))
    else .error (invalidMsg s)
  else if reRange s then
    match splitOnChar '-' s with
    | [a, b] =>
      if mi ≤ parseIntDigits a ∧ parseIntDigits b ≤ ma ∧ parseIntDigits a < parseIntDigits b then
        .ok (some (dedupSort (intRange (parseIntDigits a) (parseIntDigits b))))
      else .error (invalidMsg s)
    | _ => .error (invalidMsg s)
  else if reList s then listBranch s mi ma
  else .error (invalidMsg s)

/-- Behaviour of a task callback when invoked: return normally (or a promise
that resolves), throw synchronously, or return a promise that rejects. -/
inductive CbOutcome
  | ok
  | throwSync
  | rejectAsync
  deriving DecidableEq

/-- The `Task` argument of `addTask` (myCron.ts line 1). -/
structure TaskInput where
  name : List Char
  expression : List Char
  callBack : CbOutcome
  comment : Option (List Char)
  maxRuns : Option Nat
  deriving DecidableEq

/-- `StoredTask` (myCron.ts lines 4-11): the compiled task record kept in the
module-level `tasks` array.  `Date` values are abstracted to `Int` stamps. -/
structure StoredTask where
  name : List Char
  expression : List Char
  comment : List Char
  min : List Int
  hour : List Int
  day : List Int
  month : List Int
  weekday : List Int
  year : Option (List Int)
  lastRun : Option Int
  countRuns : Nat
  maxRuns : Option Nat
  callBack : CbOutcome
  deriving DecidableEq

/-- `TaskInfo` (myCron.ts line 2): the read-only projection returned by
`getTasks`; note it has no callback and no compiled field sets. -/
structure TaskInfo where
  name : List Char
  expression : List Char
  comment : List Char
  lastRun : Option Int
  countRuns : Nat
  maxRuns : Option Nat
  deriving DecidableEq

/-- An ASCII apostrophe (the quote used in the rewritten error message). -/
def quoteCh : Char := Char.ofNat 39

/-- The catch clause of `addTask` (myCron.ts lines 77-82): only an error whose
message is exactly `Invalid expression` (the field-count error of line 55) is
rewritten to ``Invalid cron expression `<expression>` for task `<name>` ``
(with apostrophes as quotes); every other error, in particular the
`Invalid expression: <field>` errors of `parseTimeExpression`, is re-thrown
unchanged.  (The source also renames the error to `SyntaxError`; only the
message is modelled.) -/
def rewriteErr (t : TaskInput) (msg : List Char) : List Char :=
  if msg = "Invalid expression".toList then
    "Invalid cron expression ".toList ++ [quoteCh] ++ t.expression ++ [quoteCh] ++
      " for task ".toList ++ [quoteCh] ++ t.name ++ [quoteCh]
  else msg

/-- The try block of `addTask` (myCron.ts lines 53-76):
check the field count, parse the five mandatory fields with their domains
(`?? []` is `Option.getD []`), parse the optional sixth (year) field with
domain 2020-2099 when present (`?? null` is the identity on the option), and
append the new `StoredTask` to the registry.  The `start()` side effect on the
module timer is not modelled (no claim concerns it). -/
def addTaskBody (tasks : List StoredTask) (task : TaskInput) :
    Except (List Char) (List StoredTask) :=
  if (expFields task.expression).length > 6 ∨ (expFields task.expression).length < 5 then
    .error "Invalid expression".toList
  else
    match parseTimeExpression ((expFields task.expression).getD 0 []) 0 59 with
    | .error e => .error e
    | .ok mn =>
      match parseTimeExpression ((expFields task.expression).getD 1 []) 0 23 with
      | .error e => .error e
      | .ok hr =>
        match parseTimeExpression ((expFields task.expression).getD 2 []) 1 31 with
        | .error e => .error e
        | .ok dy =>
          match parseTimeExpression ((expFields task.expression).getD 3 []) 1 12 with
          | .error e => .error e
          | .ok mo =>
            match parseTimeExpression ((expFields task.expression).getD 4 []) 0 6 with
            | .error e => .error e
            | .ok wd =>
              match (if (expFields task.expression).length ≥ 6 then
                       parseTimeExpression ((expFields task.expression).getD 5 []) 2020 2099
                     else .ok none) with
              | .error e => .error e
              | .ok yr =>
                .ok (tasks ++ [{ name := task.name
                                 expression := task.expression
                                 comment := task.comment.getD []
                                 min := mn.getD []
                                 hour := hr.getD []
                                 day := dy.getD []
                                 month := mo.getD []
                                 weekday := wd.getD []
                                 year := yr
                                 lastRun := none
                                 countRuns := 0
                                 maxRuns := task.maxRuns
                                 callBack := task.callBack }])

/-- `addTask` (myCron.ts lines 51-84): the try block (`addTaskBody`) wrapped in
the catch clause that rewrites only the exact field-count message
(`rewriteErr`). -/
def addTask (tasks : List StoredTask) (task : TaskInput) :
    Except (List Char) (List StoredTask) :=
  match addTaskBody tasks task with
  | .ok ts => .ok ts
  | .error e => .error (rewriteErr task e)

/-- `removeTask` (myCron.ts lines 86-91): remove the first task with the given
name, a no-op when the name is absent. -/
def removeTask (name : List Char) (tasks : List StoredTask) : List StoredTask :=
  match tasks.findIdx? (fun t => t.name == name) with
  | some idx => tasks.eraseIdx idx
  | none => tasks

/-- `getTasks` (myCron.ts lines 93-106): the read-only `TaskInfo` projection of
the registry, in registration order. -/
def getTasks (tasks : List StoredTask) : List TaskInfo :=
  tasks.map (fun t =>
    { name := t.name, expression := t.expression, comment := t.comment,
      lastRun := t.lastRun, maxRuns := t.maxRuns, countRuns := t.countRuns })

/-- The `while (minIdx <= maxIdx)` binary-search loop of `existsInArray`
(myCron.ts lines 166-178).  `midIdx` is `Math.floor((minIdx + maxIdx) / 2)`,
which for a positive divisor is Euclidean division; in every state reachable
from `existsInArray` the indices satisfy `0 ≤ minIdx` and `maxIdx < arr.length`
so `arr.getD midIdx.toNat 0` is the source's in-bounds `arr[midIdx]`.  The
source's final `else break` branch is unreachable (sign trichotomy) and the
loop falling through returns `false`. -/
def searchLoop (arr : List Int) (value : Int) (minIdx maxIdx : Int) : Bool :=
  if h : minIdx ≤ maxIdx then
    let midIdx := (minIdx + maxIdx) / 2
    let testResult := value - arr.getD midIdx.toNat 0
    if testResult < 0 then searchLoop arr value minIdx (midIdx - 1)
    else if testResult > 0 then searchLoop arr value (midIdx + 1) maxIdx
    else true
  else false
  termination_by (maxIdx + 1 - minIdx).toNat
  decreasing_by
  · omega
  · omega

/-- `existsInArray(arr, value)` (myCron.ts lines 156-180): linear
`Array.prototype.includes` scan when the array has fewer than 10 elements,
otherwise the guard `if (arr[0] < value || arr[arr.length - 1] > value) return
false` followed by the binary-search loop over `[0, arr.length - 1]`. -/
def existsInArray (arr : List Int) (value : Int) : Bool :=
  if arr.length < 10 then arr.contains value
  else if arr.getD 0 0 < value ∨ arr.getD (arr.length - 1) 0 > value then false
  else searchLoop arr value 0 ((arr.length : Int) - 1)

/-- The components read off `new Date()` during a tick: `getMinutes`,
`getSeconds`, `getHours`, `getDate`, `getMonth` (0-based), `getDay` (weekday,
0 = Sunday), `getFullYear`. -/
structure DateParts where
  minutes : Int
  seconds : Int
  hours : Int
  date : Int
  month : Int
  weekday : Int
  fullYear : Int
  deriving DecidableEq

/-- The `now` record built at the start of a tick (myCron.ts lines 187-194),
one component per matchable field.  `min` is the source expression
`d.getMinutes() + d.getSeconds() > 50 ? 1 : 0` verbatim. -/
structure NowParts where
  min : Int
  hour : Int
  day : Int
  month : Int
  weekday : Int
  year : Int
  deriving DecidableEq

/-- Builds `now` from the captured `Date` (myCron.ts lines 187-194). -/
def tickNow (d : DateParts) : NowParts :=
  { min := if d.minutes + d.seconds > 50 then 1 else 0
    hour := d.hours
    day := d.date
    month := d.month + 1
    weekday := d.weekday
    year := d.fullYear }

/-- The per-task match test of a tick (myCron.ts lines 196-201):
`Object.entries(now).every(...)` — every one of the five always-present field
sets must contain the corresponding `now` component via `existsInArray`, and
the year matches when `yearSet` is `null` or contains the current year. -/
def taskMatches (t : StoredTask) (n : NowParts) : Bool :=
  existsInArray t.min n.min && existsInArray t.hour n.hour &&
    existsInArray t.day n.day && existsInArray t.month n.month &&
    existsInArray t.weekday n.weekday &&
    (match t.year with
     | none => true
     | some ys => existsInArray ys n.year)

/-- The body of the dispatched `setTimeout` closure (myCron.ts lines 205-223),
acting on one task: set `lastRun`, increment `countRuns`, invoke the callback;
a synchronous throw jumps to the catch clause, SKIPPING the `maxRuns` check,
while a normal return or a rejected promise (whose rejection is only logged)
reaches the `if (task.maxRuns && task.countRuns === task.maxRuns)
removeTask(...)` line.  Returns the updated task and whether removal was
requested; `task.maxRuns &&` is JS truthiness, false for `undefined` and `0`. -/
def dispatchTask (t : StoredTask) (runDate : Int) : StoredTask × Bool :=
  let t1 : StoredTask := { t with lastRun := some runDate, countRuns := t.countRuns + 1 }
  match t.callBack with
  | .throwSync => (t1, false)
  | _ =>
    (t1, match t1.maxRuns with
         | none => false
         | some m => if m = 0 then false else t1.countRuns == m)

/-- One dispatched execution as it acts on the registry: the task at `idx` is
updated in place (the closure mutates the shared `StoredTask` object) and, when
the dispatch requested it, `removeTask` is called with the task's name. -/
def dispatchOnRegistry (tasks : List StoredTask) (idx : Nat) (runDate : Int) :
    List StoredTask :=
  match tasks.get? idx with
  | none => tasks
  | some t =>
    let r := dispatchTask t runDate
    let updated := tasks.set idx r.1
    if r.2 then removeTask r.1.name updated else updated

/-! ### Helper lemmas about the string utilities -/

theorem splitOnChar_cons_eq (sep c : Char) (cs : List Char) {p : List Char}
    {ps : List (List Char)} (h : splitOnChar sep cs = p :: ps) :
    splitOnChar sep (c :: cs) = if c = sep then [] :: p :: ps else (c :: p) :: ps := by
  simp only [splitOnChar, h]

theorem splitOnChar_ne_nil (sep : Char) (s : List Char) : splitOnChar sep s ≠ [] := by
  induction s with
  | nil => simp [splitOnChar]
  | cons c cs ih =>
    rcases h : splitOnChar sep cs with _ | ⟨p, ps⟩
    · exact absurd h ih
    · rw [splitOnChar_cons_eq sep c cs h]
      split <;> simp

theorem mem_splitOnChar_not_mem {sep : Char} {s : List Char} :
    ∀ p ∈ splitOnChar sep s, sep ∉ p := by
  induction s with
  | nil => intro p hp; simp [splitOnChar] at hp; simp [hp]
  | cons c cs ih =>
    intro p hp
    rcases h : splitOnChar sep cs with _ | ⟨q, qs⟩
    · exact absurd h (splitOnChar_ne_nil sep cs)
    · rw [splitOnChar_cons_eq sep c cs h] at hp
      by_cases hc : c = sep
      · rw [if_pos hc] at hp
        rcases List.mem_cons.mp hp with rfl | hp'
        · simp
        · exact ih p (by rw [h]; exact hp')
      · rw [if_neg hc] at hp
        rcases List.mem_cons.mp hp with rfl | hp'
        · intro hmem
          rcases List.mem_cons.mp hmem with h1 | h1
          · exact hc h1.symm
          · exact ih q (by rw [h]; exact List.mem_cons_self q qs) h1
        · exact ih p (by rw [h]; exact List.mem_cons_of_mem q hp')

theorem splitOnChar_of_not_mem {sep : Char} {s : List Char} (h : sep ∉ s) :
    splitOnChar sep s = [s] := by
  induction s with
  | nil => simp [splitOnChar]
  | cons c cs ih =>
    have h1 : ¬ c = sep := fun hc => h (by simp [hc])
    have h2 : sep ∉ cs := fun hm => h (List.mem_cons_of_mem c hm)
    have h3 := ih h2
    rw [splitOnChar_cons_eq sep c cs h3, if_neg h1]

theorem splitOnChar_append {sep : Char} {a : List Char} (b : List Char)
    (ha : sep ∉ a) : splitOnChar sep (a ++ sep :: b) = a :: splitOnChar sep b := by
  induction a with
  | nil =>
    rcases h : splitOnChar sep b with _ | ⟨p, ps⟩
    · exact absurd h (splitOnChar_ne_nil sep b)
    · rw [List.nil_append, splitOnChar_cons_eq sep sep b h, if_pos rfl]
  | cons c cs ih =>
    have h1 : ¬ c = sep := fun hc => ha (by simp [hc])
    have h2 : sep ∉ cs := fun hm => ha (List.mem_cons_of_mem c hm)
    have h3 := ih h2
    rw [List.cons_append, splitOnChar_cons_eq sep c (cs ++ sep :: b) h3, if_neg h1]

/-! ### Helper lemmas about `dedupSort` and `intRange` -/

theorem insertAsc_perm (x : Int) (l : List Int) : (insertAsc x l).Perm (x :: l) := by
  induction l with
  | nil => simp [insertAsc]
  | cons y ys ih =>
    simp only [insertAsc]
    split
    · exact List.Perm.refl _
    · exact (ih.cons y).trans (List.Perm.swap x y ys)

theorem sortAsc_perm (l : List Int) : (sortAsc l).Perm l := by
  induction l with
  | nil => simp [sortAsc]
  | cons y ys ih =>
    simp only [sortAsc, List.foldr_cons]
    exact (insertAsc_perm y _).trans (ih.cons y)

theorem mem_insertAsc {x y : Int} {l : List Int} :
    y ∈ insertAsc x l ↔ y = x ∨ y ∈ l := by
  rw [(insertAsc_perm x l).mem_iff]
  simp

theorem pairwise_le_insertAsc {x : Int} {l : List Int}
    (h : l.Pairwise (· ≤ ·)) : (insertAsc x l).Pairwise (· ≤ ·) := by
  induction l with
  | nil => simp [insertAsc]
  | cons y ys ih =>
    rw [List.pairwise_cons] at h
    simp only [insertAsc]
    split
    · rename_i hxy
      rw [List.pairwise_cons]
      refine ⟨?_, List.pairwise_cons.mpr h⟩
      intro z hz
      rcases List.mem_cons.mp hz with rfl | hz'
      · exact hxy
      · exact le_trans hxy (h.1 z hz')
    · rename_i hxy
      rw [List.pairwise_cons]
      refine ⟨?_, ih h.2⟩
      intro z hz
      rcases mem_insertAsc.mp hz with rfl | hz'
      · exact le_of_lt (lt_of_not_le hxy)
      · exact h.1 z hz'

theorem sortAsc_pairwise_le (l : List Int) : (sortAsc l).Pairwise (· ≤ ·) := by
  induction l with
  | nil => simp [sortAsc]
  | cons y ys ih => exact pairwise_le_insertAsc ih

theorem sortAsc_eq_of_pairwise_le {l : List Int} (h : l.Pairwise (· ≤ ·)) :
    sortAsc l = l := by
  induction l with
  | nil => simp [sortAsc]
  | cons y ys ih =>
    rw [List.pairwise_cons] at h
    have hys : sortAsc ys = ys := ih h.2
    show insertAsc y (sortAsc ys) = y :: ys
    rw [hys]
    cases ys with
    | nil => simp [insertAsc]
    | cons z zs =>
      simp only [insertAsc]
      rw [if_pos (h.1 z (List.mem_cons_self z zs))]

theorem dedupSort_perm (l : List Int) : (dedupSort l).Perm l.dedup :=
  sortAsc_perm l.dedup

theorem mem_dedupSort {x : Int} {l : List Int} : x ∈ dedupSort l ↔ x ∈ l := by
  rw [(dedupSort_perm l).mem_iff, List.mem_dedup]

theorem dedupSort_nodup (l : List Int) : (dedupSort l).Nodup :=
  (dedupSort_perm l).nodup_iff.mpr (List.nodup_dedup l)

theorem dedupSort_pairwise_lt (l : List Int) : (dedupSort l).Pairwise (· < ·) := by
  have h1 : (dedupSort l).Pairwise (· ≤ ·) := sortAsc_pairwise_le l.dedup
  have h2 : (dedupSort l).Pairwise (· ≠ ·) := dedupSort_nodup l
  exact (h1.and h2).imp fun h => lt_of_le_of_ne h.1 h.2

theorem dedupSort_ne_nil {l : List Int} (h : l ≠ []) : dedupSort l ≠ [] := by
  intro hc
  rcases List.exists_mem_of_ne_nil l h with ⟨x, hx⟩
  have := mem_dedupSort.mpr hx
  rw [hc] at this
  exact List.not_mem_nil x this

theorem dedupSort_eq_of_pairwise_lt {l : List Int} (h : l.Pairwise (· < ·)) :
    dedupSort l = l := by
  have hnd : l.Nodup := h.imp ne_of_lt
  show sortAsc l.dedup = l
  rw [hnd.dedup]
  exact sortAsc_eq_of_pairwise_le (h.imp le_of_lt)

theorem mem_intRange {x lo hi : Int} : x ∈ intRange lo hi ↔ lo ≤ x ∧ x ≤ hi := by
  constructor
  · intro h
    unfold intRange at h
    rcases List.mem_map.mp h with ⟨i, hi', rfl⟩
    rw [List.mem_range] at hi'
    omega
  · intro h
    unfold intRange
    refine List.mem_map.mpr ⟨(x - lo).toNat, ?_, ?_⟩
    · rw [List.mem_range]; omega
    · omega

theorem intRange_pairwise_lt (lo hi : Int) : (intRange lo hi).Pairwise (· < ·) := by
  unfold intRange
  exact List.Pairwise.map _ (fun a b hab => by omega) (List.pairwise_lt_range _)

theorem intRange_ne_nil {lo hi : Int} (h : lo ≤ hi) : intRange lo hi ≠ [] := by
  intro hc
  have : lo ∈ intRange lo hi := mem_intRange.mpr ⟨le_refl lo, h⟩
  rw [hc] at this
  exact List.not_mem_nil lo this

theorem dedupSort_intRange (lo hi : Int) : dedupSort (intRange lo hi) = intRange lo hi :=
  dedupSort_eq_of_pairwise_lt (intRange_pairwise_lt lo hi)

/-! ### The Field Parser invariants -/

/-- A comma-free input can never match the list regex, so on the sub-terms the
source recurses on, the full parser and `parseTimeExpressionSub` coincide: the
split of `parseTimeExpression` into the two Lean definitions is exact. -/
theorem parseTimeExpression_sub_agree {s : List Char} (mi ma : Int) (h : ',' ∉ s) :
    parseTimeExpression s mi ma = parseTimeExpressionSub s mi ma := by
  have hr : reList s = false := by
    unfold reList
    rw [splitOnChar_of_not_mem h]
    simp
  unfold parseTimeExpression parseTimeExpressionSub
  rw [hr]
  simp

/-- Every chunk the list branch folds over is comma-free. -/
theorem listStep_chunk_comma_free {s : List Char} :
    ∀ p ∈ splitOnChar ',' s, ',' ∉ p :=
  mem_splitOnChar_not_mem

/-- Success invariant of `parseTimeExpressionSub`: the result is a non-null,
non-empty, strictly ascending list whose members lie in `[mi, ma]`. -/
theorem parseTimeExpressionSub_ok {s : List Char} {mi ma : Int}
    {o : Option (List Int)} (hma : mi ≤ ma)
    (h : parseTimeExpressionSub s mi ma = .ok o) :
    ∃ l, o = some l ∧ l ≠ [] ∧ l.Pairwise (· < ·) ∧ ∀ x ∈ l, mi ≤ x ∧ x ≤ ma := by
  unfold parseTimeExpressionSub at h
  by_cases h1 : s = ['*']
  · rw [if_pos h1] at h
    refine ⟨dedupSort (intRange mi ma), (Except.ok.inj h).symm, ?_, ?_, ?_⟩
    · exact dedupSort_ne_nil (intRange_ne_nil hma)
    · exact dedupSort_pairwise_lt _
    · intro x hx
      exact mem_intRange.mp (mem_dedupSort.mp hx)
  · rw [if_neg h1] at h
    by_cases h2 : reDigits s = true
    · rw [if_pos h2] at h
      by_cases h3 : mi ≤ parseIntDigits s ∧ parseIntDigits s ≤ ma
      · rw [if_pos h3] at h
        refine ⟨dedupSort [parseIntDigits s], (Except.ok.inj h).symm, ?_, ?_, ?_⟩
        · exact dedupSort_ne_nil (by simp)
        · exact dedupSort_pairwise_lt _
        · intro x hx
          have : x ∈ [parseIntDigits s] := mem_dedupSort.mp hx
          simp at this
          rw [this]
          exact h3
      · rw [if_neg h3] at h
        exact absurd h (by simp)
    · rw [if_neg h2] at h
      by_cases h4 : reRange s = true
      · rw [if_pos h4] at h
        rcases hsp : splitOnChar '-' s with _ | ⟨a, rest⟩
        · exact absurd hsp (splitOnChar_ne_nil _ _)
        · rcases rest with _ | ⟨b, rest2⟩
          · simp only [hsp] at h
            exact absurd h (by simp)
          · rcases rest2 with _ | ⟨c, rest3⟩
            · simp only [hsp] at h
              by_cases h5 : mi ≤ parseIntDigits a ∧ parseIntDigits b ≤ ma ∧
                  parseIntDigits a < parseIntDigits b
              · rw [if_pos h5] at h
                refine ⟨dedupSort (intRange (parseIntDigits a) (parseIntDigits b)),
                  (Except.ok.inj h).symm, ?_, ?_, ?_⟩
                · exact dedupSort_ne_nil (intRange_ne_nil (le_of_lt h5.2.2))
                · exact dedupSort_pairwise_lt _
                · intro x hx
                  have hb := mem_intRange.mp (mem_dedupSort.mp hx)
                  exact ⟨le_trans h5.1 hb.1, le_trans hb.2 h5.2.1⟩
              · rw [if_neg h5] at h
                exact absurd h (by simp)
            · simp only [hsp] at h
              exact absurd h (by simp)
      · rw [if_neg h4] at h
        exact absurd h (by simp)

/-- Once the `every` flag is false the fold never changes state again
(`every` short-circuits; `listStep` is the identity on a false accumulator). -/
theorem foldl_listStep_false (mi ma : Int) (ps : List (List Char)) (r : List Int) :
    ps.foldl (listStep mi ma) (false, r) = (false, r) := by
  induction ps with
  | nil => rfl
  | cons p ps' ih =>
    rw [List.foldl_cons]
    have : listStep mi ma (false, r) p = (false, r) := by
      unfold listStep
      simp
    rw [this, ih]

/-- Invariant of the list-branch fold: if the flag survives, every chunk parsed
to a non-empty in-bounds list and the accumulator only grew by those values. -/
theorem foldl_listStep_ok {mi ma : Int} (hma : mi ≤ ma) :
    ∀ (ps : List (List Char)) (r : List Int),
      (ps.foldl (listStep mi ma) (true, r)).1 = true →
      ∃ added, (ps.foldl (listStep mi ma) (true, r)).2 = r ++ added ∧
        (∀ x ∈ added, mi ≤ x ∧ x ≤ ma) ∧ (ps ≠ [] → added ≠ []) := by
  intro ps
  induction ps with
  | nil =>
    intro r _
    exact ⟨[], by simp, by simp, by simp⟩
  | cons p ps' ih =>
    intro r hok
    rw [List.foldl_cons] at hok ⊢
    rcases hstep : parseTimeExpressionSub p mi ma with e | o
    · have : listStep mi ma (true, r) p = (false, r) := by
        unfold listStep
        simp [hstep]
      rw [this] at hok
      rw [foldl_listStep_false] at hok
      exact absurd hok (by simp)
    · rcases parseTimeExpressionSub_ok hma hstep with ⟨vs, rfl, hne, _, hbounds⟩
      have hstep' : listStep mi ma (true, r) p = (true, r ++ vs) := by
        unfold listStep
        simp [hstep]
      rw [hstep'] at hok ⊢
      rcases ih (r ++ vs) hok with ⟨added', heq, hb', _⟩
      refine ⟨vs ++ added', by rw [heq, List.append_assoc], ?_, ?_⟩
      · intro x hx
        rcases List.mem_append.mp hx with hx' | hx'
        · exact hbounds x hx'
        · exact hb' x hx'
      · intro _
        intro hc
        rcases List.append_eq_nil.mp hc with ⟨hvs, _⟩
        exact hne hvs

/-- Success invariant of the full Field Parser: a successful parse returns a
non-null, non-empty, strictly ascending list of values within `[mi, ma]`. -/
theorem parseTimeExpression_ok {s : List Char} {mi ma : Int}
    {o : Option (List Int)} (hma : mi ≤ ma)
    (h : parseTimeExpression s mi ma = .ok o) :
    ∃ l, o = some l ∧ l ≠ [] ∧ l.Pairwise (· < ·) ∧ ∀ x ∈ l, mi ≤ x ∧ x ≤ ma := by
  by_cases hl : (s = ['*']) ∨ reDigits s = true ∨ reRange s = true ∨ reList s = false
  · have hagree : parseTimeExpression s mi ma = parseTimeExpressionSub s mi ma := by
      unfold parseTimeExpression parseTimeExpressionSub
      by_cases h1 : s = ['*']
      · rw [if_pos h1, if_pos h1]
      · rw [if_neg h1, if_neg h1]
        by_cases h2 : reDigits s = true
        · rw [if_pos h2, if_pos h2]
        · rw [if_neg h2, if_neg h2]
          by_cases h3 : reRange s = true
          · rw [if_pos h3, if_pos h3]
          · rw [if_neg h3, if_neg h3]
            have h4 : reList s = false := by
              rcases hl with h' | h' | h' | h'
              · exact absurd h' h1
              · exact absurd h' h2
              · exact absurd h' h3
              · exact h'
            rw [h4]
            simp
    rw [hagree] at h
    exact parseTimeExpressionSub_ok hma h
  · push_neg at hl
    rcases hl with ⟨h1, h2, h3, h4⟩
    have h4' : reList s = true := by
      cases hr : reList s
      · exact absurd hr h4
      · rfl
    have hbr : parseTimeExpression s mi ma = listBranch s mi ma := by
      unfold parseTimeExpression
      rw [if_neg h1]
      have h2' : reDigits s = false := Bool.eq_false_iff.mpr h2
      have h3' : reRange s = false := Bool.eq_false_iff.mpr h3
      rw [h2', h3', h4']
      simp
    rw [hbr] at h
    unfold listBranch at h
    by_cases hok : ((splitOnChar ',' s).foldl (listStep mi ma) (true, [])).1 = true
    · rw [if_pos hok] at h
      rcases foldl_listStep_ok hma (splitOnChar ',' s) [] hok with ⟨added, heq, hb, hne⟩
      have hne' : added ≠ [] := hne (splitOnChar_ne_nil ',' s)
      refine ⟨dedupSort ((splitOnChar ',' s).foldl (listStep mi ma) (true, [])).2,
        (Except.ok.inj h).symm, ?_, dedupSort_pairwise_lt _, ?_⟩
      · apply dedupSort_ne_nil
        rw [heq]
        simp [hne']
      · intro x hx
        have := mem_dedupSort.mp hx
        rw [heq] at this
        rw [List.nil_append] at this
        exact hb x this
    · rw [if_neg hok] at h
      exact absurd h (by simp)

/-! ### Dissecting `addTask` -/

/-- A successful `addTask` is a successful try block. -/
theorem addTask_ok_body {tasks : List StoredTask} {inp : TaskInput}
    {ts : List StoredTask} (h : addTask tasks inp = .ok ts) :
    addTaskBody tasks inp = .ok ts := by
  unfold addTask at h
  rcases hb : addTaskBody tasks inp with e | ts'
  · simp only [hb] at h
    exact absurd h (by simp)
  · simp only [hb] at h
    exact h

/-- Characterisation of a successful try block: the field count was 5 or 6,
each field parsed successfully, and the new task was appended. -/
theorem addTaskBody_ok {tasks : List StoredTask} {inp : TaskInput}
    {ts : List StoredTask} (h : addTaskBody tasks inp = .ok ts) :
    ∃ mn hr dy mo wd yr,
      parseTimeExpression ((expFields inp.expression).getD 0 []) 0 59 = .ok mn ∧
      parseTimeExpression ((expFields inp.expression).getD 1 []) 0 23 = .ok hr ∧
      parseTimeExpression ((expFields inp.expression).getD 2 []) 1 31 = .ok dy ∧
      parseTimeExpression ((expFields inp.expression).getD 3 []) 1 12 = .ok mo ∧
      parseTimeExpression ((expFields inp.expression).getD 4 []) 0 6 = .ok wd ∧
      ((expFields inp.expression).length ≥ 6 ∧
          parseTimeExpression ((expFields inp.expression).getD 5 []) 2020 2099 = .ok yr ∨
        ¬ (expFields inp.expression).length ≥ 6 ∧ yr = none) ∧
      ¬ ((expFields inp.expression).length > 6 ∨ (expFields inp.expression).length < 5) ∧
      ts = tasks ++ [(⟨inp.name, inp.expression, inp.comment.getD [], mn.getD [],
        hr.getD [], dy.getD [], mo.getD [], wd.getD [], yr, none, 0, inp.maxRuns,
        inp.callBack⟩ : StoredTask)] := by
  unfold addTaskBody at h
  by_cases hc : (expFields inp.expression).length > 6 ∨ (expFields inp.expression).length < 5
  · rw [if_pos hc] at h
    exact absurd h (by simp)
  · rw [if_neg hc] at h
    rcases h0 : parseTimeExpression ((expFields inp.expression).getD 0 []) 0 59 with e | mn
    · simp only [h0] at h
      exact absurd h (by simp)
    · simp only [h0] at h
      rcases h1 : parseTimeExpression ((expFields inp.expression).getD 1 []) 0 23 with e | hr
      · simp only [h1] at h
        exact absurd h (by simp)
      · simp only [h1] at h
        rcases h2 : parseTimeExpression ((expFields inp.expression).getD 2 []) 1 31 with e | dy
        · simp only [h2] at h
          exact absurd h (by simp)
        · simp only [h2] at h
          rcases h3 : parseTimeExpression ((expFields inp.expression).getD 3 []) 1 12 with e | mo
          · simp only [h3] at h
            exact absurd h (by simp)
          · simp only [h3] at h
            rcases h4 : parseTimeExpression ((expFields inp.expression).getD 4 []) 0 6 with e | wd
            · simp only [h4] at h
              exact absurd h (by simp)
            · simp only [h4] at h
              by_cases h6 : (expFields inp.expression).length ≥ 6
              · rw [if_pos h6] at h
                rcases h5 : parseTimeExpression ((expFields inp.expression).getD 5 []) 2020 2099
                  with e | yr
                · simp only [h5] at h
                  exact absurd h (by simp)
                · simp only [h5] at h
                  exact ⟨mn, hr, dy, mo, wd, yr, rfl, rfl, rfl, rfl, rfl,
                    Or.inl ⟨h6, rfl⟩, hc, (Except.ok.inj h).symm⟩
              · rw [if_neg h6] at h
                exact ⟨mn, hr, dy, mo, wd, none, rfl, rfl, rfl, rfl, rfl,
                  Or.inr ⟨h6, rfl⟩, hc, (Except.ok.inj h).symm⟩

/-! ### Digit strings and `A-B` range strings -/

theorem reDigits_no_hyphen {a : List Char} (h : reDigits a = true) : '-' ∉ a := by
  intro hm
  unfold reDigits at h
  rw [Bool.and_eq_true] at h
  have := List.all_eq_true.mp h.2 '-' hm
  exact absurd this (by decide)

theorem range_str_ne_star {a : List Char} (b : List Char)
    (ha : reDigits a = true) : a ++ '-' :: b ≠ ['*'] := by
  cases a with
  | nil => exact absurd ha (by decide)
  | cons c cs =>
    intro hc
    rw [List.cons_append] at hc
    have := List.cons.inj hc
    rcases List.append_eq_nil.mp ((List.cons.inj hc).2) with ⟨-, h2⟩
    exact List.cons_ne_nil _ _ h2

theorem range_str_not_digits (a b : List Char) :
    reDigits (a ++ '-' :: b) = false := by
  cases hr : reDigits (a ++ '-' :: b)
  · rfl
  · have := reDigits_no_hyphen hr
    exact absurd (List.mem_append.mpr (Or.inr (List.mem_cons_self '-' b))) this

theorem range_str_split {a b : List Char} (ha : reDigits a = true)
    (hb : reDigits b = true) :
    splitOnChar '-' (a ++ '-' :: b) = [a, b] := by
  rw [splitOnChar_append b (reDigits_no_hyphen ha),
    splitOnChar_of_not_mem (reDigits_no_hyphen hb)]

theorem range_str_reRange {a b : List Char} (ha : reDigits a = true)
    (hb : reDigits b = true) : reRange (a ++ '-' :: b) = true := by
  unfold reRange
  rw [range_str_split ha hb]
  simp [ha, hb]

/-! ### The claims -/

/-- C1: the claim states that `existsInArray` answers membership correctly and
identically on both sides of the size-10 threshold.  The source inverts the
out-of-range guard (`arr[0] < value || arr[arr.length - 1] > value` instead of
`>` / `<`), so for EVERY strictly ascending array of length at least 10 the
answer is `false` for every query — first conjunct — contradicting its own
comment "search for a value in an ascending sorted array".  Concretely, 30 is
in the minute wildcard set `[0..59]` yet `existsInArray` answers `false`,
while the same member query on the small set `[0,15,30,45]` answers `true`:
the answer does depend on the threshold. -/
theorem C1_existsInArray_inverted_guard :
    (∀ (arr : List Int) (v : Int), arr.Pairwise (· < ·) → 10 ≤ arr.length →
      existsInArray arr v = false) ∧
    existsInArray (intRange 0 59) 30 = false ∧ (30 : Int) ∈ intRange 0 59 ∧
    existsInArray [0, 15, 30, 45] 30 = true ∧ (30 : Int) ∈ [0, 15, 30, 45] := by
  refine ⟨?_, by decide, by decide, by decide, by decide⟩
  intro arr v hpw hlen
  unfold existsInArray
  rw [if_neg (by omega)]
  by_cases hg : arr.getD 0 0 < v ∨ arr.getD (arr.length - 1) 0 > v
  · rw [if_pos hg]
  · exfalso
    push_neg at hg
    have h0 : (0 : Nat) < arr.length := by omega
    have hl : arr.length - 1 < arr.length := by omega
    rw [List.getD_eq_getElem arr 0 h0, List.getD_eq_getElem arr 0 hl] at hg
    have hfl : arr.get ⟨0, h0⟩ < arr.get ⟨arr.length - 1, hl⟩ :=
      List.pairwise_iff_get.mp hpw ⟨0, h0⟩ ⟨arr.length - 1, hl⟩
        (Fin.mk_lt_mk.mpr (by omega))
    simp only [List.get_eq_getElem] at hfl
    omega

/-- C1 witness: the general first conjunct applied to the hour wildcard set
`[0..23]` (24 ascending elements) and the member value 7. -/
theorem C1_existsInArray_inverted_guard_witness :
    existsInArray (intRange 0 23) 7 = false :=
  C1_existsInArray_inverted_guard.1 (intRange 0 23) 7 (intRange_pairwise_lt 0 23) (by decide)

/-- C2: the claim states that the compiled task of
`"0,15,30,45 0-6 * * 1-4"` matches the snapshot (minute 0, hour 3, day 1,
month 1, weekday 2, year unconstrained).  Compilation is correct (first
conjunct), and each captured component IS a member of its field set (last
conjunct), but the tick match predicate evaluates to `false` because
`existsInArray` (inverted bound guard, see C1) rejects the day set `[1..31]`
and month set `[1..12]`, both of length ≥ 10. -/
theorem C2_scenario_match_fails :
    addTask [] ⟨"t".toList, "0,15,30,45 0-6 * * 1-4".toList, CbOutcome.ok, none, none⟩ =
      .ok [⟨"t".toList, "0,15,30,45 0-6 * * 1-4".toList, [], [0, 15, 30, 45],
        intRange 0 6, intRange 1 31, intRange 1 12, [1, 2, 3, 4], none, none, 0, none,
        CbOutcome.ok⟩] ∧
    taskMatches ⟨"t".toList, "0,15,30,45 0-6 * * 1-4".toList, [], [0, 15, 30, 45],
        intRange 0 6, intRange 1 31, intRange 1 12, [1, 2, 3, 4], none, none, 0, none,
        CbOutcome.ok⟩ ⟨0, 3, 1, 1, 2, 2025⟩ = false ∧
    ((0 : Int) ∈ [0, 15, 30, 45] ∧ (3 : Int) ∈ intRange 0 6 ∧ (1 : Int) ∈ intRange 1 31 ∧
      (1 : Int) ∈ intRange 1 12 ∧ (2 : Int) ∈ [1, 2, 3, 4]) := by
  refine ⟨by decide, by decide, by decide, by decide, by decide, by decide, by decide⟩

/-- C3: the claim states the matched minute equals the raw current minute
(sum ≤ 50) or minute + 1 (sum > 50).  The source computes
`d.getMinutes() + d.getSeconds() > 50 ? 1 : 0`, i.e. the *constant* 0 or 1:
at 3:30:00 the snapshot minute is 0 (the claim requires 30), and at 3:59:30 it
is 1 (the claim requires 60). -/
theorem C3_minute_grace_broken :
    (tickNow ⟨30, 0, 3, 1, 0, 2, 2025⟩).min = 0 ∧ ((30 : Int) + 0 ≤ 50 ∧ (0 : Int) ≠ 30) ∧
    (tickNow ⟨59, 30, 3, 1, 0, 2, 2025⟩).min = 1 ∧ ((59 : Int) + 30 > 50 ∧ (1 : Int) ≠ 60) := by
  refine ⟨by decide, by decide, by decide, by decide⟩

/-- C4: the claim states a task whose callback always fails still increments
`runCount` AND is still auto-removed at `maxRuns`.  The increment does happen,
but the `maxRuns` check sits inside the `try` AFTER the callback invocation,
so a synchronous throw skips it: with `maxRuns = 1`, one dispatched execution
of a synchronously-throwing task leaves `countRuns = 1` and the task still in
the registry (first conjunct), whereas the same task with a rejected-promise
callback is removed (second conjunct, the rejection surfaces only after the
removal check). -/
theorem C4_sync_throw_skips_removal :
    dispatchOnRegistry [⟨"t".toList, "* * * * *".toList, [], [0], [0], [1], [1], [0],
        none, none, 0, some 1, CbOutcome.throwSync⟩] 0 7 =
      [⟨"t".toList, "* * * * *".toList, [], [0], [0], [1], [1], [0],
        none, some 7, 1, some 1, CbOutcome.throwSync⟩] ∧
    dispatchOnRegistry [⟨"t".toList, "* * * * *".toList, [], [0], [0], [1], [1], [0],
        none, none, 0, some 1, CbOutcome.rejectAsync⟩] 0 7 = [] := by
  refine ⟨by decide, by decide⟩

/-- C5: the claim states every compilation failure raises an error whose
message contains both the raw expression and the task name.  The catch clause
only rewrites the exact message `Invalid expression` (the field-count error,
last conjunct), but the Field Parser throws `Invalid expression: <field>`, so
a field-level failure such as minute `99` in `"99 * * * *"` propagates with a
message containing neither the expression nor the task name. -/
theorem C5_parse_error_message_lacks_context :
    addTask [] ⟨"t".toList, "99 * * * *".toList, CbOutcome.ok, none, none⟩ =
      .error "Invalid expression: 99".toList ∧
    hasSub "Invalid expression: 99".toList "99 * * * *".toList = false ∧
    hasSub "Invalid expression: 99".toList "t".toList = false ∧
    addTask [] ⟨"t".toList, "* * *".toList, CbOutcome.ok, none, none⟩ =
      .error ("Invalid cron expression ".toList ++ [quoteCh] ++ "* * *".toList ++ [quoteCh]
        ++ " for task ".toList ++ [quoteCh] ++ "t".toList ++ [quoteCh]) := by
  refine ⟨by decide, by decide, by decide, by decide⟩

/-- C6: for digit strings `A` and `B` with `min ≤ A`, `B ≤ max` and `B > A`,
`parseField("A-B")` returns exactly the inclusive range `[A..B]`; descending
bounds (`"B-A"`) and equal bounds (`"A-A"`) are rejected with
`InvalidExpression`.  `a` and `b` range over arbitrary decimal digit strings
and `parseIntDigits` is JS `parseInt`. -/
theorem C6_range_parse (a b : List Char) (mi ma : Int)
    (ha : reDigits a = true) (hb : reDigits b = true)
    (h1 : mi ≤ parseIntDigits a) (h2 : parseIntDigits b ≤ ma)
    (h3 : parseIntDigits a < parseIntDigits b) :
    parseTimeExpression (a ++ '-' :: b) mi ma =
      .ok (some (intRange (parseIntDigits a) (parseIntDigits b))) ∧
    (∃ e, parseTimeExpression (b ++ '-' :: a) mi ma = .error e) ∧
    (∃ e, parseTimeExpression (a ++ '-' :: a) mi ma = .error e) := by
  refine ⟨?_, ⟨invalidMsg (b ++ '-' :: a), ?_⟩, ⟨invalidMsg (a ++ '-' :: a), ?_⟩⟩
  · unfold parseTimeExpression
    rw [if_neg (range_str_ne_star b ha)]
    rw [range_str_not_digits a b, range_str_reRange ha hb]
    simp only [range_str_split ha hb, Bool.false_eq_true, if_false, if_true]
    rw [if_pos ⟨h1, h2, h3⟩, dedupSort_intRange]
  · unfold parseTimeExpression
    rw [if_neg (range_str_ne_star a hb)]
    rw [range_str_not_digits b a, range_str_reRange hb ha]
    simp only [range_str_split hb ha, Bool.false_eq_true, if_false, if_true]
    rw [if_neg (fun hc => lt_asymm h3 hc.2.2)]
  · unfold parseTimeExpression
    rw [if_neg (range_str_ne_star a ha)]
    rw [range_str_not_digits a a, range_str_reRange ha ha]
    simp only [range_str_split ha ha, Bool.false_eq_true, if_false, if_true]
    rw [if_neg (fun hc => lt_irrefl _ hc.2.2)]

/-- C6 witness: `"1-3"` on domain 0-59 yields `[1, 2, 3]`; `"3-1"` and `"1-1"`
fail. -/
theorem C6_range_parse_witness :
    parseTimeExpression ['1', '-', '3'] 0 59 = .ok (some (intRange 1 3)) ∧
    (∃ e, parseTimeExpression ['3', '-', '1'] 0 59 = .error e) ∧
    (∃ e, parseTimeExpression ['1', '-', '1'] 0 59 = .error e) :=
  C6_range_parse ['1'] ['3'] 0 59 (by decide) (by decide) (by decide) (by decide) (by decide)

/-- C7: every successful Field Parser result is strictly ascending (hence
duplicate-free) with all members inside the domain `[mi, ma]` — and
consequently every field set of a successfully compiled task satisfies the
invariant for its domain, with a non-null year set additionally non-empty. -/
theorem C7_field_sets_sorted_bounded :
    (∀ (s : List Char) (mi ma : Int) (o : Option (List Int)), mi ≤ ma →
        parseTimeExpression s mi ma = .ok o →
        ∃ l, o = some l ∧ l.Pairwise (· < ·) ∧ ∀ x ∈ l, mi ≤ x ∧ x ≤ ma) ∧
    (∀ (tasks : List StoredTask) (inp : TaskInput) (ts : List StoredTask),
        addTask tasks inp = .ok ts →
        ∃ t, ts = tasks ++ [t] ∧
          t.min.Pairwise (· < ·) ∧ (∀ x ∈ t.min, 0 ≤ x ∧ x ≤ 59) ∧
          t.hour.Pairwise (· < ·) ∧ (∀ x ∈ t.hour, 0 ≤ x ∧ x ≤ 23) ∧
          t.day.Pairwise (· < ·) ∧ (∀ x ∈ t.day, 1 ≤ x ∧ x ≤ 31) ∧
          t.month.Pairwise (· < ·) ∧ (∀ x ∈ t.month, 1 ≤ x ∧ x ≤ 12) ∧
          t.weekday.Pairwise (· < ·) ∧ (∀ x ∈ t.weekday, 0 ≤ x ∧ x ≤ 6) ∧
          ∀ ys, t.year = some ys →
            ys ≠ [] ∧ ys.Pairwise (· < ·) ∧ ∀ x ∈ ys, 2020 ≤ x ∧ x ≤ 2099) := by
  constructor
  · intro s mi ma o hma h
    rcases parseTimeExpression_ok hma h with ⟨l, rfl, -, hpw, hb⟩
    exact ⟨l, rfl, hpw, hb⟩
  · intro tasks inp ts h
    rcases addTaskBody_ok (addTask_ok_body h) with
      ⟨mn, hr, dy, mo, wd, yr, h0, h1, h2, h3, h4, h5, -, rfl⟩
    rcases parseTimeExpression_ok (by norm_num) h0 with ⟨l0, rfl, -, hpw0, hb0⟩
    rcases parseTimeExpression_ok (by norm_num) h1 with ⟨l1, rfl, -, hpw1, hb1⟩
    rcases parseTimeExpression_ok (by norm_num) h2 with ⟨l2, rfl, -, hpw2, hb2⟩
    rcases parseTimeExpression_ok (by norm_num) h3 with ⟨l3, rfl, -, hpw3, hb3⟩
    rcases parseTimeExpression_ok (by norm_num) h4 with ⟨l4, rfl, -, hpw4, hb4⟩
    refine ⟨_, rfl, by simpa using hpw0, by simpa using hb0, by simpa using hpw1,
      by simpa using hb1, by simpa using hpw2, by simpa using hb2,
      by simpa using hpw3, by simpa using hb3, by simpa using hpw4,
      by simpa using hb4, ?_⟩
    intro ys hys
    rcases h5 with ⟨-, h5⟩ | ⟨-, rfl⟩
    · rcases parseTimeExpression_ok (by norm_num) h5 with ⟨ly, rfl, hne, hpw, hb⟩
      have : ys = ly := by
        have := hys
        simp only at this
        exact (Option.some.inj this).symm
      subst this
      exact ⟨hne, hpw, hb⟩
    · exact absurd hys (by simp)

/-- C7 witness: parsing `"1-3"` with domain 0-59 gives the sorted in-bounds
list `[1, 2, 3]`. -/
theorem C7_field_sets_sorted_bounded_witness :
    ∃ l, (some [1, 2, 3] : Option (List Int)) = some l ∧ l.Pairwise (· < ·) ∧
      ∀ x ∈ l, (0 : Int) ≤ x ∧ x ≤ 59 :=
  C7_field_sets_sorted_bounded.1 ['1', '-', '3'] 0 59 (some [1, 2, 3]) (by norm_num) (by decide)

/-- C8: compilation fails whenever the normalised expression has fewer than 5
or more than 6 fields (first conjunct, for every input); with 6 fields the
sixth is parsed as the year on domain 2020-2099, so `"2019"` and `"2100"` fail
while `"2025"` compiles with `yearSet = [2025]`; with 5 fields
`yearSet = null`. -/
theorem C8_field_count_and_year_domain :
    (∀ (tasks : List StoredTask) (inp : TaskInput),
        (expFields inp.expression).length < 5 ∨ (expFields inp.expression).length > 6 →
        ∃ e, addTask tasks inp = .error e) ∧
    (∃ e, addTask []
      ⟨"t".toList, "* * * * * 2019".toList, CbOutcome.ok, none, none⟩ = .error e) ∧
    (∃ e, addTask []
      ⟨"t".toList, "* * * * * 2100".toList, CbOutcome.ok, none, none⟩ = .error e) ∧
    addTask [] ⟨"t".toList, "* * * * * 2025".toList, CbOutcome.ok, none, none⟩ =
      .ok [⟨"t".toList, "* * * * * 2025".toList, [], intRange 0 59, intRange 0 23,
        intRange 1 31, intRange 1 12, intRange 0 6, some [2025], none, 0, none,
        CbOutcome.ok⟩] ∧
    addTask [] ⟨"t".toList, "* * * * *".toList, CbOutcome.ok, none, none⟩ =
      .ok [⟨"t".toList, "* * * * *".toList, [], intRange 0 59, intRange 0 23,
        intRange 1 31, intRange 1 12, intRange 0 6, none, none, 0, none,
        CbOutcome.ok⟩] := by
  refine ⟨?_, ⟨"Invalid expression: 2019".toList, by decide⟩,
    ⟨"Invalid expression: 2100".toList, by decide⟩, by decide, by decide⟩
  intro tasks inp hlen
  refine ⟨rewriteErr inp "Invalid expression".toList, ?_⟩
  unfold addTask addTaskBody
  rw [if_pos (Or.symm hlen)]

/-- C8 witness: a 4-field expression fails to compile. -/
theorem C8_field_count_and_year_domain_witness :
    ∃ e, addTask [] ⟨"t".toList, "* * * *".toList, CbOutcome.ok, none, none⟩ = .error e :=
  C8_field_count_and_year_domain.1 []
    ⟨"t".toList, "* * * *".toList, CbOutcome.ok, none, none⟩ (by decide)

/-- C9: a successful `addTask` appends exactly one entry, and `getTasks`
returns, in registration order, the read-only projection whose `expression` is
the exact original string handed to `addTask` (the normalisation is only used
for splitting), exposing name, expression, comment, lastRun, countRuns and
maxRuns — the `TaskInfo` type has no callback and no compiled field sets. -/
theorem C9_listTasks_roundtrip :
    ∀ (tasks : List StoredTask) (inp : TaskInput) (ts : List StoredTask),
      addTask tasks inp = .ok ts →
      getTasks ts = getTasks tasks ++
        [⟨inp.name, inp.expression, inp.comment.getD [], none, 0, inp.maxRuns⟩] := by
  intro tasks inp ts h
  rcases addTaskBody_ok (addTask_ok_body h) with
    ⟨mn, hr, dy, mo, wd, yr, -, -, -, -, -, -, -, rfl⟩
  unfold getTasks
  rw [List.map_append]
  exact rfl

/-- C9 witness: an expression with redundant whitespace registers and reads
back verbatim. -/
theorem C9_listTasks_roundtrip_witness :
    getTasks [⟨"t".toList, "0   *  * * *".toList, "c".toList, [0], intRange 0 23,
      intRange 1 31, intRange 1 12, intRange 0 6, none, none, 0, some 5,
      CbOutcome.ok⟩] =
    getTasks [] ++ [⟨"t".toList, "0   *  * * *".toList, "c".toList, none, 0, some 5⟩] :=
  C9_listTasks_roundtrip []
    ⟨"t".toList, "0   *  * * *".toList, CbOutcome.ok, some "c".toList, some 5⟩
    [⟨"t".toList, "0   *  * * *".toList, "c".toList, [0], intRange 0 23,
      intRange 1 31, intRange 1 12, intRange 0 6, none, none, 0, some 5,
      CbOutcome.ok⟩] (by decide)

/-- C10: whenever the Field Parser succeeds on a domain with `mi ≤ ma` (all six
call sites satisfy this) the result is non-null and non-empty, so the five
always-present field sets of every registered task are non-empty and the
`?? []` / `?? null` fallbacks in `addTask` never engage. -/
theorem C10_parse_never_null_never_empty :
    (∀ (s : List Char) (mi ma : Int) (o : Option (List Int)), mi ≤ ma →
        parseTimeExpression s mi ma = .ok o → ∃ l, o = some l ∧ l ≠ []) ∧
    (∀ (tasks : List StoredTask) (inp : TaskInput) (ts : List StoredTask),
        addTask tasks inp = .ok ts →
        ∃ t, ts = tasks ++ [t] ∧ t.min ≠ [] ∧ t.hour ≠ [] ∧ t.day ≠ [] ∧
          t.month ≠ [] ∧ t.weekday ≠ []) := by
  constructor
  · intro s mi ma o hma h
    rcases parseTimeExpression_ok hma h with ⟨l, rfl, hne, -, -⟩
    exact ⟨l, rfl, hne⟩
  · intro tasks inp ts h
    rcases addTaskBody_ok (addTask_ok_body h) with
      ⟨mn, hr, dy, mo, wd, yr, h0, h1, h2, h3, h4, -, -, rfl⟩
    rcases parseTimeExpression_ok (by norm_num) h0 with ⟨l0, rfl, hne0, -, -⟩
    rcases parseTimeExpression_ok (by norm_num) h1 with ⟨l1, rfl, hne1, -, -⟩
    rcases parseTimeExpression_ok (by norm_num) h2 with ⟨l2, rfl, hne2, -, -⟩
    rcases parseTimeExpression_ok (by norm_num) h3 with ⟨l3, rfl, hne3, -, -⟩
    rcases parseTimeExpression_ok (by norm_num) h4 with ⟨l4, rfl, hne4, -, -⟩
    exact ⟨_, rfl, by simpa using hne0, by simpa using hne1, by simpa using hne2,
      by simpa using hne3, by simpa using hne4⟩

/-- C10 witness: parsing `"0"` with domain 0-59 yields the non-empty `[0]`. -/
theorem C10_parse_never_null_never_empty_witness :
    ∃ l, (some [0] : Option (List Int)) = some l ∧ l ≠ [] :=
  C10_parse_never_null_never_empty.1 ['0'] 0 59 (some [0]) (by norm_num) (by decide)

end MyCron
